import Mathlib

/-!
Shallow embedding of the annotation-synchronization frontend
(`src/frontend/src/App.jsx` and the Quill editor wrapper in
`src/unnamed/part_000`), together with theorems about its behaviour.

The document's checker-visible text is modelled as a `List Char`; error
marks are the set of character positions carrying the `error` format; the
scheduler (debounce effect + `checkText`) is a step function over events.
-/

/-- A candidate replacement as delivered by the checker: either a bare
string or an object `\x7b value: string \x7d` (the code distinguishes the two
with a `typeof` check). -/
inductive Replacement where
  | plain (s : String)
  | valued (value : String)
  deriving DecidableEq, Repr

/-- `typeof replacement === 'string' ? replacement : replacement.value`. -/
def replacementString : Replacement → String
  | .plain s => s
  | .valued v => v

/-- JS truthiness of a replacement entry: the guard `if (!replacement …) return`
treats the empty string as falsy, while any object is truthy. -/
def replacementIsFalsy : Replacement → Bool
  | .plain s => s.isEmpty
  | .valued _ => false

/-- One checker finding (a `match` of the wire contract): offset and length
are integers indexing into the plain text, with a message and candidate
replacements. -/
structure Finding where
  offset : Int
  length : Int
  message : String
  replacements : List Replacement
  deriving DecidableEq, Repr

/-- The identity string the frontend builds for a finding:
`` `${match.offset}-${match.length}-${match.message}` ``. -/
def errorId (f : Finding) : String :=
  toString f.offset ++ "-" ++ toString f.length ++ "-" ++ f.message

/-- One server response body (`/v2/check`): the ordered match list plus the
count and AI-availability flag the frontend reads. -/
structure CheckResult where
  «matches» : List Finding
  corrections_found : Nat
  ai_enabled : Bool
  deriving DecidableEq, Repr

/-! ### The replacement transaction (`replaceText` in the Quill wrapper)

`replaceText(offset, length, replacement)` runs
`quill.deleteText(offset, length)` followed by
`quill.insertText(offset, replacement)`.  On the plain text both Quill
operations clamp indices past the end of the document, exactly as
`List.take`/`List.drop` do. -/

/-- `quill.deleteText(offset, length)` on the plain text. -/
def deleteText (d : List Char) (offset length : Nat) : List Char :=
  d.take offset ++ d.drop (offset + length)

/-- `quill.insertText(offset, text)` on the plain text. -/
def insertText (d : List Char) (offset : Nat) (t : List Char) : List Char :=
  d.take offset ++ t ++ d.drop offset

/-- The text effect of the editor's `replaceText(offset, length, replacement)`:
delete the span, then insert the replacement at its start.  The source
performs no bounds validation before the two Quill calls. -/
def replaceText (d : List Char) (offset length : Nat) (t : List Char) : List Char :=
  insertText (deleteText d offset length) offset t

/-- `replaceText` always equals the splice `d[0:offset] ++ t ++ d[offset+length:]`
(with `take`/`drop` clamping past the end, as Quill does). -/
theorem replaceText_eq_splice (d : List Char) (o l : Nat) (t : List Char) :
    replaceText d o l t = d.take o ++ t ++ d.drop (o + l) := by
  unfold replaceText insertText deleteText
  rcases le_or_lt o d.length with h | h
  · have hlen : (d.take o).length = o := by simp [List.length_take, Nat.min_eq_left h]
    rw [List.take_append_eq_append_take, List.drop_append_eq_append_drop, hlen]
    simp [List.take_take]
  · have htake : d.take o = d := List.take_of_length_le h.le
    have hdrop : d.drop (o + l) = [] :=
      List.drop_eq_nil_of_le (le_trans h.le (Nat.le_add_right o l))
    have hdrop' : d.drop o = [] := List.drop_eq_nil_of_le h.le
    simp [htake, hdrop, hdrop', List.take_of_length_le h.le]

/-- C2: For every document `D` and finding span `[o, o+l)` lying within `D`'s
plain text, `replaceText` yields a document whose plain text equals
`D[0:o] ++ text ++ D[o+l:]` exactly. -/
theorem replaceText_splices_in_bounds (d : List Char) (o l : Nat) (t : List Char)
    (_h : o + l ≤ d.length) :
    replaceText d o l t = d.take o ++ t ++ d.drop (o + l) := by
  exact replaceText_eq_splice d o l t

/-- C2 witness: on document `"Teh cat"`, replacing the span `[0, 3)` with
`"The"` yields plain text `"The cat"`, the splice of the original. -/
theorem replaceText_splices_in_bounds_witness :
    0 + 3 ≤ "Teh cat".data.length ∧
      replaceText "Teh cat".data 0 3 "The".data =
        "Teh cat".data.take 0 ++ "The".data ++ "Teh cat".data.drop (0 + 3) :=
  ⟨by decide, replaceText_splices_in_bounds "Teh cat".data 0 3 "The".data (by decide)⟩

/-- C9 counterexample: the replacement operation is not a no-op on an
out-of-bounds span.  On document `"ab"` (length 2) with span offset 1,
length 5 (so `offset + length > 2`), the document is mutated. -/
theorem replaceText_out_of_bounds_mutates :
    replaceText "ab".data 1 5 "XY".data ≠ "ab".data := by decide

/-- C9 amended: a span exceeding the document bounds is neither validated nor
reported; the deletion is clamped to the end of the document, so the result is
`D[0:offset] ++ text` — the document is mutated, not left unchanged. -/
theorem replaceText_out_of_bounds_clamps (d : List Char) (o l : Nat) (t : List Char)
    (h : d.length < o + l) :
    replaceText d o l t = d.take o ++ t := by
  have hdrop : d.drop (o + l) = [] := List.drop_eq_nil_of_le h.le
  rw [replaceText_eq_splice, hdrop, List.append_nil]

/-- C9 amended witness: on `"ab"` with offset 1, length 5, replacement `"XY"`,
the result is `"aXY"` (= `take 1 "ab" ++ "XY"`). -/
theorem replaceText_out_of_bounds_clamps_witness :
    "ab".data.length < 1 + 5 ∧
      replaceText "ab".data 1 5 "XY".data = "ab".data.take 1 ++ "XY".data :=
  ⟨by decide, replaceText_out_of_bounds_clamps "ab".data 1 5 "XY".data (by decide)⟩

/-! ### The highlight projection (the `errors` effect in the Quill wrapper)

The document state visible to the projection is its plain text, the set of
character positions carrying the `error` format, and the selection.  The
effect first clears the error format over `[0, text.length)` (when the text
is non-empty), then walks the `errors` array applying the format over each
finding's span when `offset >= 0 && offset + length <= text.length &&
length > 0`, and finally restores the selection it captured at the start. -/

/-- The document state the projection acts on: plain text, the positions
holding the `error` mark, and the selection (index, length). -/
structure Doc where
  text : List Char
  marks : Finset Nat
  cursor : Option (Nat × Nat)
  deriving DecidableEq

theorem Doc.ext_mk {a b : Doc} (ht : a.text = b.text) (hm : a.marks = b.marks)
    (hc : a.cursor = b.cursor) : a = b := by
  cases a; cases b; simp_all

/-- The positions `[o, o + l)` covered by applying a format of length `l`
at offset `o`. -/
def spanSet (o l : Nat) : Finset Nat := (Finset.range l).image (o + ·)

theorem mem_spanSet {p o l : Nat} : p ∈ spanSet o l ↔ o ≤ p ∧ p < o + l := by
  constructor
  · intro hp
    simp only [spanSet, Finset.mem_image, Finset.mem_range] at hp
    obtain ⟨k, hk, rfl⟩ := hp
    omega
  · intro ⟨h1, h2⟩
    simp only [spanSet, Finset.mem_image, Finset.mem_range]
    exact ⟨p - o, by omega, by omega⟩

/-- `quill.formatText(0, len, 'error', false)`: remove the error mark from
every position below `len`. -/
def clearAll (m : Finset Nat) (len : Nat) : Finset Nat :=
  m.filter (fun p => len ≤ p)

/-- One iteration of the `errors.forEach` loop: apply the error mark over the
finding's span when it passes the in-bounds guard, otherwise skip it. -/
def markStep (len : Nat) (acc : Finset Nat) (f : Finding) : Finset Nat :=
  if 0 ≤ f.offset ∧ f.offset + f.length ≤ (len : Int) ∧ 0 < f.length then
    acc ∪ spanSet f.offset.toNat f.length.toNat
  else acc

/-- The whole `errors.forEach` loop over the current mark set. -/
def applyMarks (m : Finset Nat) (errors : List Finding) (len : Nat) : Finset Nat :=
  errors.foldl (markStep len) m

/-- The projection effect: on an empty error list, clear the error mark over
the non-empty text and return; otherwise clear it, re-apply a mark per
in-bounds finding, and restore the captured selection (so the cursor field is
unchanged). -/
def project (d : Doc) (errors : List Finding) : Doc :=
  let len := d.text.length
  if errors.isEmpty then
    if 0 < len then { d with marks := clearAll d.marks len } else d
  else
    { d with
      marks := applyMarks (if 0 < len then clearAll d.marks len else d.marks) errors len }

theorem applyMarks_eq_union (m : Finset Nat) (errors : List Finding) (len : Nat) :
    applyMarks m errors len = m ∪ applyMarks ∅ errors len := by
  induction errors generalizing m with
  | nil => simp [applyMarks]
  | cons f es ih =>
    show applyMarks (markStep len m f) es len = m ∪ applyMarks (markStep len ∅ f) es len
    rw [ih, ih (markStep len ∅ f)]
    unfold markStep
    split
    · rw [Finset.empty_union, Finset.union_assoc]
    · rw [Finset.empty_union]

theorem applyMarks_mem_lt {p : Nat} {errors : List Finding} {len : Nat}
    (hp : p ∈ applyMarks ∅ errors len) : p < len := by
  induction errors with
  | nil => simp [applyMarks] at hp
  | cons f es ih =>
    have : applyMarks ∅ (f :: es) len = applyMarks (markStep len ∅ f) es len := rfl
    rw [this, applyMarks_eq_union] at hp
    rcases Finset.mem_union.mp hp with hm | hm
    · unfold markStep at hm
      split at hm
      · next hg =>
        rcases Finset.mem_union.mp hm with hm | hm
        · simp at hm
        · have := mem_spanSet.mp hm
          omega
      · simp at hm
    · exact ih hm

theorem clearAll_union (a b : Finset Nat) (len : Nat) :
    clearAll (a ∪ b) len = clearAll a len ∪ clearAll b len :=
  Finset.filter_union _ _ _

theorem clearAll_idem (a : Finset Nat) (len : Nat) :
    clearAll (clearAll a len) len = clearAll a len := by
  ext p
  simp only [clearAll, Finset.mem_filter]
  tauto

theorem clearAll_of_all_lt {s : Finset Nat} {len : Nat} (h : ∀ p ∈ s, p < len) :
    clearAll s len = ∅ := by
  ext p
  simp only [clearAll, Finset.mem_filter, Finset.not_mem_empty, iff_false, not_and, not_le]
  intro hp
  exact h p hp

theorem project_nil (d : Doc) :
    project d [] =
      if 0 < d.text.length then { d with marks := clearAll d.marks d.text.length } else d := by
  simp [project]

theorem project_of_not_isEmpty (d : Doc) (errors : List Finding)
    (he : errors.isEmpty = false) :
    project d errors =
      { d with
        marks := applyMarks (if 0 < d.text.length then clearAll d.marks d.text.length
          else d.marks) errors d.text.length } := by
  simp [project, he]

/-- C4: projecting a finding set onto a document twice in succession yields
the same document state as projecting it once: the projection first clears
the error mark over the whole text span, then re-applies marks for each
in-bounds active finding, so a second run recomputes the same mark set. -/
theorem project_idempotent (d : Doc) (errors : List Finding) :
    project (project d errors) errors = project d errors := by
  rcases hb : errors.isEmpty with _ | _
  · -- non-empty error list
    rw [project_of_not_isEmpty d errors hb, project_of_not_isEmpty _ errors hb]
    have hS : ∀ p ∈ applyMarks ∅ errors d.text.length, p < d.text.length :=
      fun _ hp => applyMarks_mem_lt hp
    apply Doc.ext_mk
    · rfl
    · show applyMarks
        (if 0 < d.text.length then
          clearAll (applyMarks (if 0 < d.text.length then clearAll d.marks d.text.length
            else d.marks) errors d.text.length) d.text.length
        else applyMarks (if 0 < d.text.length then clearAll d.marks d.text.length
            else d.marks) errors d.text.length) errors d.text.length =
        applyMarks (if 0 < d.text.length then clearAll d.marks d.text.length
          else d.marks) errors d.text.length
      by_cases hl : 0 < d.text.length
      · rw [if_pos hl, if_pos hl,
          applyMarks_eq_union (clearAll d.marks d.text.length) errors d.text.length,
          clearAll_union, clearAll_idem, clearAll_of_all_lt hS, Finset.union_empty,
          ← applyMarks_eq_union]
      · rw [if_neg hl, if_neg hl,
          applyMarks_eq_union d.marks errors d.text.length,
          applyMarks_eq_union (d.marks ∪ applyMarks ∅ errors d.text.length) errors
            d.text.length,
          Finset.union_assoc, Finset.union_self]
    · rfl
  · -- empty error list
    have he : errors = [] := List.isEmpty_iff.mp hb
    subst he
    rw [project_nil d]
    by_cases hl : 0 < d.text.length
    · rw [if_pos hl, project_nil, if_pos (by simpa using hl)]
      apply Doc.ext_mk
      · rfl
      · show clearAll (clearAll d.marks d.text.length) d.text.length =
          clearAll d.marks d.text.length
        exact clearAll_idem d.marks d.text.length
      · rfl
    · rw [if_neg hl, project_nil, if_neg hl]

theorem markStep_skip {len : Nat} {f : Finding}
    (h : f.offset < 0 ∨ f.length ≤ 0 ∨ (len : Int) < f.offset + f.length)
    (acc : Finset Nat) : markStep len acc f = acc := by
  have hg : ¬(0 ≤ f.offset ∧ f.offset + f.length ≤ (len : Int) ∧ 0 < f.length) := by
    rcases h with h | h | h <;> omega
  simp [markStep, hg]

/-- C5: a finding whose span does not fit the current text — negative offset,
non-positive length, or `offset + length` past the end — is skipped silently:
projecting with it present yields exactly the projection without it, and the
findings around it are still processed. -/
theorem project_skips_out_of_range (d : Doc) (pre post : List Finding) (f : Finding)
    (h : f.offset < 0 ∨ f.length ≤ 0 ∨ (d.text.length : Int) < f.offset + f.length) :
    project d (pre ++ f :: post) = project d (pre ++ post) := by
  have hskip : ∀ acc : Finset Nat, markStep d.text.length acc f = acc :=
    fun acc => markStep_skip h acc
  have happ : ∀ m : Finset Nat,
      applyMarks m (pre ++ f :: post) d.text.length =
        applyMarks m (pre ++ post) d.text.length := by
    intro m
    unfold applyMarks
    rw [List.foldl_append, List.foldl_append]
    show List.foldl _ (markStep _ (List.foldl _ m pre) f) post = _
    rw [hskip]
  have hne : (pre ++ f :: post).isEmpty = false := by cases pre <;> rfl
  rw [project_of_not_isEmpty d _ hne]
  rcases hpp : (pre ++ post).isEmpty with _ | _
  · -- surrounding findings present: same fold with the bad step removed
    rw [project_of_not_isEmpty d _ hpp]
    apply Doc.ext_mk
    · rfl
    · exact happ _
    · rfl
  · -- `f` was the only finding: projecting it equals projecting nothing
    have hpre : pre = [] := by
      cases pre with
      | nil => rfl
      | cons a l => simp [List.isEmpty] at hpp
    have hpost : post = [] := by
      rw [hpre] at hpp
      cases post with
      | nil => rfl
      | cons a l => simp [List.isEmpty] at hpp
    subst hpre; subst hpost
    rw [show project d ([] ++ []) = project d [] from rfl, project_nil]
    have hone : ∀ m : Finset Nat, applyMarks m ([] ++ f :: []) d.text.length = m := by
      intro m
      show markStep d.text.length m f = m
      exact hskip m
    rw [show ({ d with
          marks := applyMarks (if 0 < d.text.length then clearAll d.marks d.text.length
            else d.marks) ([] ++ f :: []) d.text.length } : Doc) =
        { d with marks := (if 0 < d.text.length then clearAll d.marks d.text.length
            else d.marks) } by rw [hone]]
    by_cases hl : 0 < d.text.length
    · rw [if_pos hl, if_pos hl]
    · rw [if_neg hl, if_neg hl]

/-- C5 witness: on a two-character document, a finding with offset 5 and
length 3 (span past the end) is skipped: projecting `[f]` equals projecting
`[]`. -/
theorem project_skips_out_of_range_witness :
    ((5 : Int) < 0 ∨ (3 : Int) ≤ 0 ∨ (("ab".data.length : Int) < 5 + 3)) ∧
      project ⟨"ab".data, ∅, none⟩ ([] ++ (⟨5, 3, "x", []⟩ : Finding) :: []) =
        project ⟨"ab".data, ∅, none⟩ ([] ++ []) :=
  ⟨Or.inr (Or.inr (by decide)),
    project_skips_out_of_range ⟨"ab".data, ∅, none⟩ [] [] ⟨5, 3, "x", []⟩
      (Or.inr (Or.inr (by decide)))⟩

/-! ### Reconciling the ignore set (`checkText` success path in App.jsx)

On every accepted check response the frontend walks `data.matches`, keeps the
identities already in the previous ignore set, and replaces the ignore set
with exactly those (`preservedIgnored`). -/

/-- The `preservedIgnored` computation: starting from an empty set, add the
identity of each new match that was in the previous ignore set. -/
def reconcile (prev : Finset String) (newMatches : List Finding) : Finset String :=
  newMatches.foldl (fun acc m => if errorId m ∈ prev then insert (errorId m) acc else acc) ∅

theorem reconcile_mem_aux (prev : Finset String) (ms : List Finding)
    (acc : Finset String) (x : String) :
    x ∈ ms.foldl (fun acc m => if errorId m ∈ prev then insert (errorId m) acc else acc) acc ↔
      x ∈ acc ∨ (x ∈ prev ∧ x ∈ ms.map errorId) := by
  induction ms generalizing acc with
  | nil => simp
  | cons m ms ih =>
    simp only [List.foldl_cons, List.map_cons, List.mem_cons]
    rw [ih]
    by_cases hm : errorId m ∈ prev
    · simp only [if_pos hm, Finset.mem_insert]
      constructor
      · rintro (⟨rfl | hx⟩ | h)
        · exact Or.inr ⟨hm, Or.inl rfl⟩
        · exact Or.inl hx
        · exact Or.inr ⟨h.1, Or.inr h.2⟩
      · rintro (hx | ⟨hp, rfl | hx⟩)
        · exact Or.inl (Or.inr hx)
        · exact Or.inl (Or.inl rfl)
        · exact Or.inr ⟨hp, hx⟩
    · simp only [if_neg hm]
      constructor
      · rintro (hx | h)
        · exact Or.inl hx
        · exact Or.inr ⟨h.1, Or.inr h.2⟩
      · rintro (hx | ⟨hp, rfl | hx⟩)
        · exact Or.inl hx
        · exact absurd hp hm
        · exact Or.inr ⟨hp, hx⟩

/-- C3: the reconciled ignore set is exactly the set of identities that are
both in the previous ignore set and among the identities of the accepted new
findings: a still-reported ignored identity stays ignored, an identity absent
from the new findings is dropped. -/
theorem reconcile_eq_inter (prev : Finset String) (newMatches : List Finding) :
    reconcile prev newMatches = prev ∩ (newMatches.map errorId).toFinset := by
  ext x
  rw [reconcile, reconcile_mem_aux]
  simp [List.mem_toFinset]

/-! ### The update gate (`isUpdatingRef` in the Quill wrapper)

The `text-change` handler registered on the editor returns immediately while
`isUpdatingRef.current` is set, and otherwise forwards `(html, plainText)` to
`onChange` — the entry point of the scheduler. -/

/-- The `text-change` handler: forward the content to `onChange` only when the
update gate is not held. -/
def handleTextChange (gate : Bool) (content : String × String) : Option (String × String) :=
  if gate then none else some content

/-- The contents forwarded to `onChange` out of a stream of editor
change notifications, given the state of the update gate. -/
def forwardedChanges (gate : Bool) (notifs : List (String × String)) : List (String × String) :=
  notifs.filterMap (handleTextChange gate)

/-! ### The check scheduler (debounce effect + `checkText` in App.jsx)

The scheduler state is the component state `text / result / error /
ignoredErrors / loading` plus the pending debounce timer and the list of
check requests issued so far (identified by issue order).  Events are: an
editor change (`onChange` → `setText` → the debounce effect), the debounce
timer firing (`checkText` runs), and a response arriving for an issued
request — successfully or with a network/HTTP failure.  The source applies
every arriving response unconditionally: there is no supersession stamp. -/

/-- The JS emptiness test `!text.trim()`: true exactly when every character
of the text is whitespace, so that trimming leaves the empty string. -/
def jsTrimEmpty (s : String) : Bool :=
  s.data.all Char.isWhitespace

/-- The scheduler-visible component state of `App`. -/
structure SchedState where
  text : String
  result : Option CheckResult
  error : Option String
  ignored : Finset String
  loading : Bool
  timerPending : Bool
  issued : List Nat
  deriving DecidableEq

/-- The initial component state. -/
def initState : SchedState :=
  { text := "", result := none, error := none, ignored := ∅,
    loading := false, timerPending := false, issued := [] }

/-- An event of the single-threaded event loop. -/
inductive Ev where
  | edit (s : String)
  | fire
  | arriveOk (id : Nat) (data : CheckResult)
  | arriveErr (id : Nat) (msg : String)
  deriving DecidableEq

/-- One step of the scheduler.

* `edit s`: `handleEditorChange` stores the new text and the debounce effect
  runs — it clears any pending timer, and either resets result/error/ignored
  (empty trimmed text) or schedules a new timer.
* `fire`: a pending timer fires and `checkText` runs: on empty trimmed text it
  sets a local message and clears result and ignored without issuing a
  request; otherwise it sets `loading`, clears `error` and issues the next
  request.
* `arriveOk id data`: the response of issued request `id` resolves: the ignore
  set is reconciled against `data.matches` and the result is replaced by
  `data` — with no check that `id` is still the newest request.
* `arriveErr id msg`: the fetch for issued request `id` fails (network error
  or non-ok status): the message is surfaced and nothing else changes except
  `loading`. -/
def stepEv (st : SchedState) (e : Ev) : SchedState :=
  match e with
  | .edit s =>
    if jsTrimEmpty s then
      { st with
        text := s, timerPending := false, result := none, error := none, ignored := ∅ }
    else
      { st with text := s, timerPending := true }
  | .fire =>
    if st.timerPending then
      if jsTrimEmpty st.text then
        { st with
          timerPending := false,
          error := some "Por favor, digite um texto para verificar.",
          result := none, ignored := ∅ }
      else
        { st with
          timerPending := false, loading := true, error := none,
          issued := st.issued ++ [st.issued.length] }
    else st
  | .arriveOk id data =>
    if id ∈ st.issued then
      { st with
        result := some data,
        ignored := reconcile st.ignored data.matches,
        loading := false }
    else st
  | .arriveErr id msg =>
    if id ∈ st.issued then
      { st with error := some msg, loading := false }
    else st

/-- Running a list of events from a state. -/
def runEvents (st : SchedState) (evs : List Ev) : SchedState :=
  evs.foldl stepEv st

/-- The response data of the concrete superseded request used against C1. -/
def dataA : CheckResult :=
  { «matches» := [⟨0, 3, "spelling", [.plain "The"]⟩], corrections_found := 1,
    ai_enabled := false }

/-- The concrete event trace used against C1: request 0 (A) is issued for
`"Teh cat"`, a further edit issues request 1 (B), and only then does A's
response arrive. -/
def staleTrace : List Ev :=
  [.edit "Teh cat", .fire, .edit "Teh cat!", .fire, .arriveOk 0 dataA]

/-- C1 counterexample: in `staleTrace`, request B (id 1) is issued after
request A (id 0) and A's response arrives after B has been issued — yet A's
response is not discarded: it overwrites the stored check result, which ends
up holding A's data. -/
theorem stale_response_overwrites_result :
    (runEvents initState staleTrace).issued = [0, 1] ∧
      (runEvents initState staleTrace).result = some dataA := by
  constructor <;> rfl

/-- C1 amended: the scheduler does not discard superseded in-flight
responses.  Whenever the successful response of any issued request arrives —
whether or not a newer request has been issued since — its data overwrites
the stored check result, so the projected result is that of the last response
to arrive, not of the most recently issued request. -/
theorem arriving_response_always_overwrites (st : SchedState) (id : Nat)
    (data : CheckResult) (h : id ∈ st.issued) :
    (stepEv st (.arriveOk id data)).result = some data := by
  simp [stepEv, h]

/-- C1 amended witness: in the concrete superseded trace, applying A's
arrival as the final step overwrites the result with A's data. -/
theorem arriving_response_always_overwrites_witness :
    0 ∈ (runEvents initState [.edit "Teh cat", .fire, .edit "Teh cat!", .fire]).issued ∧
      (stepEv (runEvents initState [.edit "Teh cat", .fire, .edit "Teh cat!", .fire])
        (.arriveOk 0 dataA)).result = some dataA :=
  ⟨by decide,
    arriving_response_always_overwrites
      (runEvents initState [.edit "Teh cat", .fire, .edit "Teh cat!", .fire]) 0 dataA
      (by decide)⟩

/-- C6: while the update gate is held during a programmatic document mutation,
no editor change notification is forwarded to `onChange`, and hence none of
them re-triggers the check scheduler: feeding the forwarded stream to the
scheduler as edit events leaves its state unchanged. -/
theorem gate_blocks_change_notifications (notifs : List (String × String))
    (st : SchedState) :
    forwardedChanges true notifs = [] ∧
      runEvents st ((forwardedChanges true notifs).map (fun c => Ev.edit c.2)) = st := by
  have hnil : forwardedChanges true notifs = [] := by
    induction notifs with
    | nil => rfl
    | cons c cs ih =>
      simp only [forwardedChanges, List.filterMap, handleTextChange, if_pos rfl] at ih ⊢
      exact ih
  exact ⟨hnil, by rw [hnil]; rfl⟩

/-- C7: when an edit makes the trimmed text empty, the debounce effect cancels
the pending timer, clears the check result, the error state and the ignore
set, issues nothing, and a subsequent timer fire cannot send a request
either. -/
theorem empty_text_resets (st : SchedState) (s : String) (h : jsTrimEmpty s = true) :
    (stepEv st (.edit s)).timerPending = false ∧
      (stepEv st (.edit s)).result = none ∧
      (stepEv st (.edit s)).error = none ∧
      (stepEv st (.edit s)).ignored = ∅ ∧
      (stepEv st (.edit s)).issued = st.issued ∧
      (stepEv (stepEv st (.edit s)) .fire).issued = st.issued := by
  refine ⟨?_, ?_, ?_, ?_, ?_, ?_⟩ <;> simp [stepEv, h]

/-- C7 witness: from a state with a pending timer, a stored result, an error,
a non-empty ignore set and one issued request, editing to the whitespace-only
text `" "` resets everything and never issues request 1. -/
theorem empty_text_resets_witness :
    jsTrimEmpty " " = true ∧
      ((stepEv ⟨"a", some dataA, some "boom", {"x"}, true, true, [0]⟩ (.edit " ")).timerPending
          = false ∧
        (stepEv ⟨"a", some dataA, some "boom", {"x"}, true, true, [0]⟩ (.edit " ")).result
          = none ∧
        (stepEv ⟨"a", some dataA, some "boom", {"x"}, true, true, [0]⟩ (.edit " ")).error
          = none ∧
        (stepEv ⟨"a", some dataA, some "boom", {"x"}, true, true, [0]⟩ (.edit " ")).ignored
          = ∅ ∧
        (stepEv ⟨"a", some dataA, some "boom", {"x"}, true, true, [0]⟩ (.edit " ")).issued
          = (⟨"a", some dataA, some "boom", {"x"}, true, true, [0]⟩ : SchedState).issued ∧
        (stepEv (stepEv ⟨"a", some dataA, some "boom", {"x"}, true, true, [0]⟩ (.edit " "))
            .fire).issued
          = (⟨"a", some dataA, some "boom", {"x"}, true, true, [0]⟩ : SchedState).issued) :=
  ⟨by decide, empty_text_resets ⟨"a", some dataA, some "boom", {"x"}, true, true, [0]⟩ " "
    (by decide)⟩

/-- C8: a failed check request (network error or non-ok HTTP status) surfaces
its message as the user-visible error, leaves the previously stored check
result and the ignore set untouched, stops the loading indicator, and a
subsequent non-empty edit schedules a fresh check (retry). -/
theorem failed_request_preserves_state (st : SchedState) (id : Nat) (msg : String)
    (s : String) (hid : id ∈ st.issued) (hs : jsTrimEmpty s = false) :
    (stepEv st (.arriveErr id msg)).error = some msg ∧
      (stepEv st (.arriveErr id msg)).result = st.result ∧
      (stepEv st (.arriveErr id msg)).ignored = st.ignored ∧
      (stepEv st (.arriveErr id msg)).loading = false ∧
      (stepEv (stepEv st (.arriveErr id msg)) (.edit s)).timerPending = true := by
  refine ⟨?_, ?_, ?_, ?_, ?_⟩ <;> simp [stepEv, hid, hs]

/-- C8 witness: with request 0 in flight over a stored result, a failure
response with message `"boom"` surfaces the message, preserves result and
ignore set, and the subsequent edit `"b"` re-arms the timer. -/
theorem failed_request_preserves_state_witness :
    0 ∈ (⟨"a", some dataA, none, {"x"}, true, false, [0]⟩ : SchedState).issued ∧
      jsTrimEmpty "b" = false ∧
      ((stepEv ⟨"a", some dataA, none, {"x"}, true, false, [0]⟩ (.arriveErr 0 "boom")).error
          = some "boom" ∧
        (stepEv ⟨"a", some dataA, none, {"x"}, true, false, [0]⟩ (.arriveErr 0 "boom")).result
          = (⟨"a", some dataA, none, {"x"}, true, false, [0]⟩ : SchedState).result ∧
        (stepEv ⟨"a", some dataA, none, {"x"}, true, false, [0]⟩ (.arriveErr 0 "boom")).ignored
          = (⟨"a", some dataA, none, {"x"}, true, false, [0]⟩ : SchedState).ignored ∧
        (stepEv ⟨"a", some dataA, none, {"x"}, true, false, [0]⟩ (.arriveErr 0 "boom")).loading
          = false ∧
        (stepEv (stepEv ⟨"a", some dataA, none, {"x"}, true, false, [0]⟩ (.arriveErr 0 "boom"))
            (.edit "b")).timerPending = true) :=
  ⟨by decide, by decide,
    failed_request_preserves_state ⟨"a", some dataA, none, {"x"}, true, false, [0]⟩ 0 "boom" "b"
      (by decide) (by decide)⟩

/-! ### The replacement handler (`handleReplaceText` in App.jsx)

`handleReplaceText(matchIndex, replacementIndex)` bails out when there is no
stored check result, when the match index is out of range of the current
match list, or when the selected replacement entry does not exist (or is a
falsy value); only then does it call the editor's `replaceText` and drop the
finding's identity from the ignore set. -/

/-- The application state touched by the replacement handler. -/
structure ReplState where
  docText : List Char
  result : Option CheckResult
  ignored : Finset String
  deriving DecidableEq

/-- `handleReplaceText(matchIndex, replacementIndex)`: guard chain from the
source, then the editor replacement plus the ignore-set deletion. -/
def handleReplaceText (st : ReplState) (matchIndex replacementIndex : Nat) : ReplState :=
  match st.result with
  | none => st
  | some res =>
    match res.matches[matchIndex]? with
    | none => st
    | some m =>
      match m.replacements[replacementIndex]? with
      | none => st
      | some r =>
        if replacementIsFalsy r then st
        else
          { st with
            docText := replaceText st.docText m.offset.toNat m.length.toNat
              (replacementString r).data,
            ignored := st.ignored.erase (errorId m) }

/-- C10: calling the replacement handler with no current check result, a match
index out of range of the current match list, or a replacement index selecting
an entry that does not exist, returns the state unchanged: the document, the
check result and the ignore set are all left as they were. -/
theorem handleReplaceText_noop (st : ReplState) (matchIndex replacementIndex : Nat)
    (h : st.result = none ∨
      ∃ res, st.result = some res ∧
        (res.matches[matchIndex]? = none ∨
          ∃ m, res.matches[matchIndex]? = some m ∧
            m.replacements[replacementIndex]? = none)) :
    handleReplaceText st matchIndex replacementIndex = st := by
  rcases h with h | ⟨res, hres, h⟩
  · simp [handleReplaceText, h]
  · rcases h with h | ⟨m, hm, h⟩
    · simp [handleReplaceText, hres, h]
    · simp [handleReplaceText, hres, hm, h]

/-- C10 witness: with a stored result whose single match has one replacement,
asking for replacement index 1 (which does not exist) leaves the state
unchanged. -/
theorem handleReplaceText_noop_witness :
    ((⟨"Teh cat".data, some dataA, ∅⟩ : ReplState).result = none ∨
      ∃ res, (⟨"Teh cat".data, some dataA, ∅⟩ : ReplState).result = some res ∧
        (res.matches[0]? = none ∨
          ∃ m, res.matches[0]? = some m ∧ m.replacements[1]? = none)) ∧
      handleReplaceText ⟨"Teh cat".data, some dataA, ∅⟩ 0 1 =
        ⟨"Teh cat".data, some dataA, ∅⟩ :=
  ⟨Or.inr ⟨dataA, rfl, Or.inr ⟨⟨0, 3, "spelling", [.plain "The"]⟩, rfl, rfl⟩⟩,
    handleReplaceText_noop ⟨"Teh cat".data, some dataA, ∅⟩ 0 1
      (Or.inr ⟨dataA, rfl, Or.inr ⟨⟨0, 3, "spelling", [.plain "The"]⟩, rfl, rfl⟩⟩)⟩
